import Mathlib

/-!
Verification of the molcraft autoregressive sampling / incremental decoding
subsystem: a shallow embedding of `molcraft/tokenizers.py`, `molcraft/layers.py`,
`molcraft/models.py` and `molcraft/samplers.py`, with theorems settling the
spec claims about tokenizer construction, sampler construction and entry
checks, attention-cache updates, causal masking, top-k token selection,
tokenize/detokenize round trips, and the generation loop.

Tensors are embedded as lists (batched, ragged data) or as index functions
(dense caches and masks); Python exceptions are embedded with `Except`;
the unbounded `tf.while_loop` of the generation loop is embedded with an
explicit fuel argument.
-/

namespace Molcraft

/-- Python exceptions raised by the embedded code. -/
inductive PyErr where
  | typeError
  | valueError (msg : String)
deriving DecidableEq, Repr

/-- Python truthiness of an optional string (`None` and `''` are falsy). -/
def strTruthy (o : Option String) : Bool := o.getD "" != ""

/-- `tokenizers.PAD_TOKEN`. -/
def PAD_TOKEN : String := "[pad]"

/-- `tokenizers.OOV_TOKEN`. -/
def OOV_TOKEN : String := "[oov]"

/-- `tokenizers.BOS_TOKEN`. -/
def BOS_TOKEN : String := "[bos]"

/-- `tokenizers.EOS_TOKEN`. -/
def EOS_TOKEN : String := "[eos]"

/-- `tokenizers.PAD_TOKEN_ID`. -/
def PAD_TOKEN_ID : Nat := 0

/-- `tokenizers.OOV_TOKEN_ID`. -/
def OOV_TOKEN_ID : Nat := 1

/-- The configuration state a `Tokenizer.__init__` call produces
(`tokenizers.py`, lines 27-74). -/
structure TokenizerCfg where
  sequence_length : Option Int
  padding_mode : String
  pad_token : String
  bos_token : Option String
  eos_token : Option String
  oov_token : Option String
  sep_token : Option String
  pad_token_id : Nat
  oov_token_id : Nat
  bos_token_id : Option Nat
  eos_token_id : Nat
  special_tokens : List String
  vocabulary : Option (List String)
deriving DecidableEq, Repr

/-- `Tokenizer.__init__` (`tokenizers.py`, lines 27-74).

The `sequence_length` check of line 39 cannot fire for a well-typed
`Option Int` argument and is omitted.  Line 50 sets `bos_token_id` to `2`
or `None` by the truthiness of `bos_token`; line 51 sets `eos_token_id`
to `3` or `None`; line 52 then executes
`self.eos_token_id -= 1 if not self.bos_token else 0`, which is an
in-place subtraction of an `int` from `eos_token_id` - when
`eos_token_id` is `None` this raises a `TypeError` (for either value of
the subtrahend), before the special-token list or any vocabulary is
built.  Vocabulary construction (lines 61-74) keeps the supplied order
because `_create_vocab` sorts by the strictly decreasing counts
`len(vocabulary)..1` inserted at line 67. -/
def tokenizerInit (vocabulary : Option (List String)) (sequence_length : Option Int)
    (add_bos add_eos : Bool) (oov_token : Option String) (sep_token : Option String)
    (padding_mode : String) : Except PyErr TokenizerCfg :=
  let padding_mode := if padding_mode = "left" then "left" else "right"
  let bos_token : Option String := if add_bos then some BOS_TOKEN else none
  let eos_token : Option String := if add_eos then some EOS_TOKEN else none
  let bos_token_id : Option Nat := if strTruthy bos_token then some 2 else none
  let eos_token_id0 : Option Nat := if strTruthy eos_token then some 3 else none
  match eos_token_id0 with
  | none => Except.error PyErr.typeError
  | some e =>
    let eos_token_id := e - (if strTruthy bos_token then 0 else 1)
    let special_tokens :=
      [PAD_TOKEN]
      ++ (if strTruthy oov_token then [oov_token.getD ""] else [])
      ++ (if strTruthy bos_token then [BOS_TOKEN] else [])
      ++ (if strTruthy eos_token then [EOS_TOKEN] else [])
    let built_vocabulary : Option (List String) :=
      match vocabulary with
      | some v =>
        if v ≠ [] then
          some (special_tokens ++ v.filter (fun t => ¬ t ∈ special_tokens))
        else none
      | none => none
    Except.ok
      { sequence_length := sequence_length
        padding_mode := padding_mode
        pad_token := PAD_TOKEN
        bos_token := bos_token
        eos_token := eos_token
        oov_token := oov_token
        sep_token := sep_token
        pad_token_id := PAD_TOKEN_ID
        oov_token_id := OOV_TOKEN_ID
        bos_token_id := bos_token_id
        eos_token_id := eos_token_id
        special_tokens := special_tokens
        vocabulary := built_vocabulary }

/-- Claim C10: every construction of a `Tokenizer` with `add_eos = False`
(whatever the other arguments, which includes the default configuration)
raises a `TypeError`, because `eos_token_id` is `None` and line 52 of
`tokenizers.py` decrements it with an integer; the error precedes the
vocabulary build, so no configuration (and no vocabulary) is ever
produced, and consequently a `Tokenizer` without an end token cannot be
constructed at all. -/
theorem tokenizer_init_no_eos_type_error (vocabulary : Option (List String))
    (sequence_length : Option Int) (add_bos : Bool)
    (oov_token sep_token : Option String) (padding_mode : String) :
    tokenizerInit vocabulary sequence_length add_bos false oov_token sep_token padding_mode
      = Except.error PyErr.typeError := by
  rfl

/-- The configuration a `Sampler.__init__` call records (`samplers.py`,
lines 13-31).  The model handle is abstract and irrelevant to the checked
behaviour, so it is not stored; besides the recorded fields the
constructor only wraps `_prepare` and `_generate` in `tf.function`
(behaviour-neutral tracing), so construction performs no generation
work. -/
structure SamplerCfg where
  tokenizer : TokenizerCfg
  temperature : ℚ
  run_eagerly : Bool
deriving DecidableEq, Repr

/-- The error message of `Sampler.__init__` (`samplers.py`, lines 21-24). -/
def samplerInitMsg : String :=
  "Tokenizer requires start and stop token. Specify add_bos=True and add_eos=True for tokenizer."

/-- `Sampler.__init__` (`samplers.py`, lines 13-31): raises `ValueError`
unless `tokenizer.bos_token and tokenizer.eos_token` is truthy, then
records the configuration. -/
def samplerInit (tokenizer : TokenizerCfg) (temperature : ℚ) (run_eagerly : Bool) :
    Except PyErr SamplerCfg :=
  if ¬ (strTruthy tokenizer.bos_token ∧ strTruthy tokenizer.eos_token) then
    Except.error (PyErr.valueError samplerInitMsg)
  else
    Except.ok { tokenizer := tokenizer, temperature := temperature, run_eagerly := run_eagerly }

/-- Claim C6: `Sampler` construction raises exactly when the tokenizer
lacks a configured (truthy) begin token or end token; with both
configured it succeeds, and the produced sampler merely records the
constructor arguments - no generation work happens during
construction. -/
theorem sampler_init_requires_begin_end (tokenizer : TokenizerCfg)
    (temperature : ℚ) (run_eagerly : Bool) :
    (samplerInit tokenizer temperature run_eagerly
        = Except.error (PyErr.valueError samplerInitMsg)
      ↔ (strTruthy tokenizer.bos_token = false ∨ strTruthy tokenizer.eos_token = false))
    ∧ (strTruthy tokenizer.bos_token = true → strTruthy tokenizer.eos_token = true →
        samplerInit tokenizer temperature run_eagerly
          = Except.ok
              { tokenizer := tokenizer, temperature := temperature,
                run_eagerly := run_eagerly }) := by
  constructor
  · unfold samplerInit
    by_cases hb : strTruthy tokenizer.bos_token <;>
      by_cases he : strTruthy tokenizer.eos_token <;>
        simp [hb, he]
  · intro hb he
    unfold samplerInit
    simp [hb, he]

/-- A tokenizer configuration with both begin and end tokens, used to
witness `sampler_init_requires_begin_end`. -/
def tokC : TokenizerCfg :=
  { sequence_length := none
    padding_mode := "right"
    pad_token := PAD_TOKEN
    bos_token := some BOS_TOKEN
    eos_token := some EOS_TOKEN
    oov_token := some OOV_TOKEN
    sep_token := none
    pad_token_id := PAD_TOKEN_ID
    oov_token_id := OOV_TOKEN_ID
    bos_token_id := some 2
    eos_token_id := 3
    special_tokens := [PAD_TOKEN, OOV_TOKEN, BOS_TOKEN, EOS_TOKEN]
    vocabulary := none }

/-- Witness for claim C6: at the concrete configuration `tokC` both
tokens are configured and construction succeeds, recording the
arguments. -/
theorem sampler_init_requires_begin_end_witness :
    strTruthy tokC.bos_token = true ∧ strTruthy tokC.eos_token = true ∧
      samplerInit tokC 1 false
        = Except.ok { tokenizer := tokC, temperature := 1, run_eagerly := false } :=
  ⟨by decide, by decide,
    (sampler_init_requires_begin_end tokC 1 false).2 (by decide) (by decide)⟩

/-- The element dtype of a tensor in the embedding; only stringness is
observed by the sampler entry check. -/
inductive DType where
  | string
  | int32
  | float32
deriving DecidableEq, Repr

/-- A value passed to `Sampler.sample`: either an already-constructed
tensor (`is_tensor = true`) or a convertible value, with its element
dtype. -/
structure PyTensor where
  is_tensor : Bool
  dtype : DType
deriving DecidableEq, Repr

/-- `keras.ops.convert_to_tensor`: yields a tensor of the same element
dtype. -/
def convert_to_tensor (x : PyTensor) : PyTensor := { is_tensor := true, dtype := x.dtype }

/-- The entry validation of `Sampler.sample` (`samplers.py`, lines
33-51): each sequence argument is converted and dtype-checked only when
it is not already a tensor; on success the (possibly converted)
arguments are handed to `__call__`. -/
def sampleEntryCheck (decoder_sequence : PyTensor) (encoder_sequence : Option PyTensor) :
    Except PyErr (PyTensor × Option PyTensor) := do
  let dec ←
    if ¬ decoder_sequence.is_tensor then
      let d := convert_to_tensor decoder_sequence
      if d.dtype ≠ DType.string then
        throw (PyErr.valueError "The dtype of decoder_sequence needs to tf.string.")
      else pure d
    else pure decoder_sequence
  let enc ←
    match encoder_sequence with
    | some e =>
      if ¬ e.is_tensor then
        let e2 := convert_to_tensor e
        if e2.dtype ≠ DType.string then
          throw (PyErr.valueError "The dtype of encoder_sequence needs to tf.string.")
        else pure (some e2)
      else pure (some e)
    | none => pure none
  return (dec, enc)

/-- A sequence argument that `Sampler.sample` rejects: a non-tensor
value whose converted dtype is not string. -/
def badSeqArg (x : PyTensor) : Bool := !x.is_tensor && x.dtype != DType.string

/-- Counterexample to claim C7: an already-constructed tensor of
non-string dtype passes the entry check of `Sampler.sample` without any
error, although the claim demands an error for every non-string
sequence input regardless of tensor-ness. -/
theorem sample_entry_check_accepts_nonstring_tensor :
    sampleEntryCheck { is_tensor := true, dtype := DType.int32 } none
        = Except.ok ({ is_tensor := true, dtype := DType.int32 }, none)
      ∧ DType.int32 ≠ DType.string := by
  constructor
  · rfl
  · decide

/-- Claim C7 as amended: the entry check of `Sampler.sample` fails (and
then nothing downstream runs) exactly when the decoder sequence - or
the encoder sequence, when given - was passed as a value that is not
already a tensor and whose converted dtype is not string;
already-constructed tensors are forwarded without any dtype check. -/
theorem sample_entry_check_rejects_converted_nonstring (decoder_sequence : PyTensor)
    (encoder_sequence : Option PyTensor) :
    (sampleEntryCheck decoder_sequence encoder_sequence).isOk
      = !(badSeqArg decoder_sequence || (encoder_sequence.map badSeqArg).getD false) := by
  cases decoder_sequence with
  | mk dt dd =>
    cases encoder_sequence with
    | none =>
      cases dt <;> cases dd <;> rfl
    | some e =>
      cases e with
      | mk et ed =>
        cases dt <;> cases dd <;> cases et <;> cases ed <;> rfl

/-- `layers._compute_causal_mask` (`layers.py`, lines 458-472): the mask
entry for batch row `b`, query position `q` and key position `j` is
`i >= j`, where `i` is the query's absolute position - `q` itself when
no cache index is given (`zeros(batch,1) + arange(output_length)`), and
the supplied per-row cache index otherwise (a ragged index is densified
with default `-1`, hence `Int`-valued entries).  `batch_size`,
`input_length` and `output_length` fix the tensor extents
(`b < batch_size`, `q < output_length`, `j < input_length`). -/
def _compute_causal_mask (batch_size input_length output_length : Nat)
    (cache_index : Option (Nat → Nat → Int)) : Nat → Nat → Nat → Bool :=
  fun b q j =>
    let i : Int :=
      match cache_index with
      | none => (q : Int)
      | some f => f b q
    i ≥ (j : Int)

/-- `layers._merge_padding_and_attention_mask` (`layers.py`, lines
474-491): the padding mask is expanded over the query axis and, when an
attention mask is also given, combined with it by elementwise minimum.
(The `_keras_mask` fallback of the source reads the same padding mask
off the input tensor and is subsumed by the `padding_mask` argument.) -/
def _merge_padding_and_attention_mask (padding_mask : Option (Nat → Nat → Nat))
    (attention_mask : Option (Nat → Nat → Nat → Nat)) : Option (Nat → Nat → Nat → Nat) :=
  let mask : Option (Nat → Nat → Nat → Nat) :=
    padding_mask.map (fun pm => fun b _ j => pm b j)
  match attention_mask with
  | some am =>
    match mask with
    | none => some am
    | some m => some (fun b q j => min (m b q j) (am b q j))
  | none => mask

/-- Cast of a boolean mask entry to the integer mask dtype. -/
def maskVal (x : Bool) : Nat := if x then 1 else 0

/-- `TransformerDecoderLayer._compute_self_attention_mask` (`layers.py`,
lines 232-260): merge padding/attention masks; when causal masking is
enabled, take the elementwise minimum with the causal mask (or the
causal mask alone when no other mask is present); `input_length` is the
cache length when a cache is in use. -/
def _compute_self_attention_mask (padding_mask : Option (Nat → Nat → Nat))
    (attention_mask : Option (Nat → Nat → Nat → Nat)) (use_causal_mask : Bool)
    (batch_size input_length output_length : Nat)
    (self_attention_cache_update_index : Option (Nat → Nat → Int)) :
    Option (Nat → Nat → Nat → Nat) :=
  let decoder_mask := _merge_padding_and_attention_mask padding_mask attention_mask
  if use_causal_mask then
    let causal := fun b q j =>
      maskVal (_compute_causal_mask batch_size input_length output_length
        self_attention_cache_update_index b q j)
    match decoder_mask with
    | some m => some (fun b q j => min (m b q j) (causal b q j))
    | none => some causal
  else decoder_mask

/-- Claim C5: with causal masking enabled, the decoder layer's
self-attention mask permits a query at absolute position `i` (the cache
update index when caching, the query offset `q` itself otherwise) to
attend to key position `j` iff `j ≤ i`; and when a padding mask is also
present, the final mask is the elementwise minimum of the padding mask
and this causal mask. -/
theorem self_attention_mask_causal (padding_mask : Nat → Nat → Nat)
    (cache_index : Nat → Nat → Int) (batch_size input_length output_length : Nat)
    (b q j : Nat) :
    ((_compute_self_attention_mask none none true batch_size input_length output_length
        (some cache_index)).getD (fun _ _ _ => 0) b q j ≠ 0
      ↔ (j : Int) ≤ cache_index b q)
    ∧ ((_compute_self_attention_mask none none true batch_size input_length output_length
        none).getD (fun _ _ _ => 0) b q j ≠ 0
      ↔ j ≤ q)
    ∧ (_compute_self_attention_mask (some padding_mask) none true batch_size input_length
        output_length (some cache_index)).getD (fun _ _ _ => 0) b q j
      = min (padding_mask b j)
          (if (j : Int) ≤ cache_index b q then 1 else 0) := by
  refine ⟨?_, ?_, ?_⟩
  · simp [_compute_self_attention_mask, _merge_padding_and_attention_mask,
      _compute_causal_mask, maskVal, ge_iff_le]
  · simp [_compute_self_attention_mask, _merge_padding_and_attention_mask,
      _compute_causal_mask, maskVal, ge_iff_le, Int.ofNat_le]
  · simp only [_compute_self_attention_mask, _merge_padding_and_attention_mask,
      _compute_causal_mask, maskVal, Option.map, if_true, ge_iff_le]
    by_cases h : (j : Int) ≤ cache_index b q <;> simp [h]

/-- The flat write list derived from one row of a ragged cache-update
index: row id `b`, local ranks counted from `r`, and the row's absolute
positions.  (`index.value_rowids()`, `tf.ragged.range(row_lengths)` and
`index.flat_values` in `layers._cache_update`.) -/
def rowWrites (b : Nat) : Nat → List Nat → List (Nat × Nat × Nat)
  | _, [] => []
  | r, p :: ps => (b, r, p) :: rowWrites b (r + 1) ps

/-- The flat write list of a whole ragged index, rows numbered from
`b`. -/
def raggedWrites : Nat → List (List Nat) → List (Nat × Nat × Nat)
  | _, [] => []
  | b, row :: rows => rowWrites b 0 row ++ raggedWrites (b + 1) rows

/-- One scatter write `(row, rank, position)`: set entry
`(row, position)` of the cache to `update row rank` (the value
`tf.gather_nd(update, gather_index)` selects for this write). -/
def applyWrite {α : Type} (update : Nat → Nat → α) (c : Nat → Nat → α) (w : Nat × Nat × Nat) :
    Nat → Nat → α :=
  fun b p => if b = w.1 ∧ p = w.2.2 then update w.1 w.2.1 else c b p

/-- `layers._cache_update` (`layers.py`, lines 493-512): flatten the
ragged per-row index into `(row, rank)` gather pairs and
`(row, position)` scatter pairs, gather the update values by row and
local rank, and scatter them into the cache; a dense `[batch, 1]` index
is first ragged-ified, i.e. it is the singleton-rows special case of
this definition.  Caches are embedded as functions from
`(row, position)` to the (key or value) slice stored there. -/
def _cache_update {α : Type} (cache : Nat → Nat → α) (index : List (List Nat))
    (update : Nat → Nat → α) : Nat → Nat → α :=
  (raggedWrites 0 index).foldl (applyWrite update) cache

theorem foldl_applyWrite_frame {α : Type} (update : Nat → Nat → α) (L : List (Nat × Nat × Nat))
    (c : Nat → Nat → α) (b p : Nat) (h : ∀ w ∈ L, ¬ (w.1 = b ∧ w.2.2 = p)) :
    L.foldl (applyWrite update) c b p = c b p := by
  induction L generalizing c with
  | nil => rfl
  | cons w L ih =>
    have hw := h w (List.mem_cons_self w L)
    have hL : ∀ w' ∈ L, ¬ (w'.1 = b ∧ w'.2.2 = p) :=
      fun w' hw' => h w' (List.mem_cons_of_mem w hw')
    simp only [List.foldl_cons]
    rw [ih _ hL]
    simp only [applyWrite]
    rw [if_neg]
    intro hc
    exact hw ⟨hc.1.symm, hc.2.symm⟩

theorem foldl_applyWrite_write {α : Type} (update : Nat → Nat → α) (L : List (Nat × Nat × Nat))
    (c : Nat → Nat → α) (b r p : Nat) (hmem : (b, r, p) ∈ L)
    (huniq : ∀ w ∈ L, w.1 = b → w.2.2 = p → w.2.1 = r) :
    L.foldl (applyWrite update) c b p = update b r := by
  induction L generalizing c with
  | nil => cases hmem
  | cons w L ih =>
    by_cases hL : (b, r, p) ∈ L
    · simp only [List.foldl_cons]
      exact ih _ hL (fun w' hw' => huniq w' (List.mem_cons_of_mem w hw'))
    · have hw : w = (b, r, p) := by
        rcases List.mem_cons.mp hmem with h | h
        · exact h.symm
        · exact absurd h hL
      subst hw
      simp only [List.foldl_cons]
      have hnone : ∀ w' ∈ L, ¬ (w'.1 = b ∧ w'.2.2 = p) := by
        rintro w' hw' ⟨h1, h2⟩
        have hr : w'.2.1 = r := huniq w' (List.mem_cons_of_mem _ hw') h1 h2
        apply hL
        have hweq : w' = (b, r, p) := by
          obtain ⟨w1, w2, w3⟩ := w'
          simp only at h1 h2 hr
          simp [h1, h2, hr]
        rwa [hweq] at hw'
      rw [foldl_applyWrite_frame update L _ b p hnone]
      simp [applyWrite]

theorem mem_rowWrites_iff (b r₀ : Nat) (row : List Nat) (w : Nat × Nat × Nat) :
    w ∈ rowWrites b r₀ row ↔ ∃ k p, row[k]? = some p ∧ w = (b, r₀ + k, p) := by
  induction row generalizing r₀ with
  | nil => simp [rowWrites]
  | cons p ps ih =>
    simp only [rowWrites, List.mem_cons, ih]
    constructor
    · rintro (h | ⟨k, p', hk, hw⟩)
      · exact ⟨0, p, by simp, by simpa using h⟩
      · exact ⟨k + 1, p', by simpa using hk, by simpa [Nat.add_assoc, Nat.add_comm 1 k] using hw⟩
    · rintro ⟨k, p', hk, hw⟩
      cases k with
      | zero =>
        left
        simp only [List.getElem?_cons_zero, Option.some_inj] at hk
        simp [hw, hk]
      | succ k =>
        right
        refine ⟨k, p', by simpa using hk, ?_⟩
        simpa [Nat.add_assoc, Nat.add_comm 1 k] using hw

theorem mem_raggedWrites_iff (b₀ : Nat) (rows : List (List Nat)) (w : Nat × Nat × Nat) :
    w ∈ raggedWrites b₀ rows ↔
      ∃ j row, rows[j]? = some row ∧ w ∈ rowWrites (b₀ + j) 0 row := by
  induction rows generalizing b₀ with
  | nil => simp [raggedWrites]
  | cons row rows ih =>
    simp only [raggedWrites, List.mem_append, ih]
    constructor
    · rintro (h | ⟨j, row', hj, hw⟩)
      · exact ⟨0, row, by simp, by simpa using h⟩
      · exact ⟨j + 1, row', by simpa using hj, by simpa [Nat.add_assoc, Nat.add_comm 1 j] using hw⟩
    · rintro ⟨j, row', hj, hw⟩
      cases j with
      | zero =>
        left
        simp only [List.getElem?_cons_zero, Option.some_inj] at hj
        subst hj
        simpa using hw
      | succ j =>
        right
        refine ⟨j, row', by simpa using hj, ?_⟩
        simpa [Nat.add_assoc, Nat.add_comm 1 j] using hw

/-- Claim C4: for any prior cache, per-row update positions that are
in range and unique within the call, and any update values,
`_cache_update` yields a cache holding the update value of local rank
`r` at each written pair `(b, index[b][r])` and agreeing with the prior
cache at every other `(row, position)` pair - no other row or position
changes.  (A scalar-per-row index is the singleton-rows instance.) -/
theorem cache_update_locality {α : Type} (cache update : Nat → Nat → α) (index : List (List Nat))
    (max_length : Nat)
    (hrange : ∀ (b : Nat) (row : List Nat) (p : Nat), index[b]? = some row → p ∈ row → p < max_length)
    (hnodup : ∀ (b : Nat) (row : List Nat), index[b]? = some row → row.Nodup) :
    (∀ b row r p, index[b]? = some row → row[r]? = some p →
        _cache_update cache index update b p = update b r)
    ∧ (∀ b p, (∀ (row : List Nat) (r : Nat), index[b]? = some row → row[r]? ≠ some p) →
        _cache_update cache index update b p = cache b p) := by
  constructor
  · intro b row r p hb hr
    apply foldl_applyWrite_write
    · rw [mem_raggedWrites_iff]
      refine ⟨b, row, by simpa using hb, ?_⟩
      rw [mem_rowWrites_iff]
      exact ⟨r, p, hr, by simp⟩
    · intro w hw h1 h2
      rw [mem_raggedWrites_iff] at hw
      obtain ⟨j, row', hj, hw⟩ := hw
      rw [mem_rowWrites_iff] at hw
      obtain ⟨k, p', hk, hwe⟩ := hw
      simp only [Nat.zero_add] at hj hwe
      subst hwe
      have hjb : j = b := h1
      have hpp : p' = p := h2
      rw [hjb, hb] at hj
      have hrow : row = row' := Option.some.inj hj
      rw [← hrow, hpp] at hk
      show k = r
      have hnd := hnodup b row hb
      obtain ⟨hk1, hk2⟩ := List.getElem?_eq_some_iff.mp hk
      obtain ⟨hr1, hr2⟩ := List.getElem?_eq_some_iff.mp hr
      have heq : row[k] = row[r] := by rw [hk2, hr2]
      exact (List.Nodup.getElem_inj_iff hnd).mp heq
  · intro b p hnot
    apply foldl_applyWrite_frame
    rintro w hw ⟨h1, h2⟩
    rw [mem_raggedWrites_iff] at hw
    obtain ⟨j, row', hj, hw⟩ := hw
    rw [mem_rowWrites_iff] at hw
    obtain ⟨k, p', hk, hwe⟩ := hw
    simp only [Nat.zero_add] at hj hwe
    subst hwe
    have hjb : j = b := h1
    have hpp : p' = p := h2
    subst hjb
    subst hpp
    exact hnot row' k hj hk

/-- A concrete cache for the claim C4 witness. -/
def exCache : Nat → Nat → Nat := fun b p => 10 * b + p

/-- Concrete update values for the claim C4 witness. -/
def exUpdate : Nat → Nat → Nat := fun b r => 100 + 10 * b + r

/-- Witness for claim C4: with ragged index `[[0, 2], [1]]` (positions
in range `3`, unique per row), position `2` of row `0` receives the
rank-`1` update value, and the untouched pair `(1, 2)` keeps its prior
cache value. -/
theorem cache_update_locality_witness :
    _cache_update exCache [[0, 2], [1]] exUpdate 0 2 = exUpdate 0 1
    ∧ _cache_update exCache [[0, 2], [1]] exUpdate 1 2 = exCache 1 2 := by
  have hrange : ∀ (b : Nat) (row : List Nat) (p : Nat),
      ([[0, 2], [1]] : List (List Nat))[b]? = some row → p ∈ row → p < 3 := by
    intro b row p hb hp
    rcases b with _ | _ | b
    · obtain rfl : row = [0, 2] := (Option.some.inj hb).symm
      have hp2 : p = 0 ∨ p = 2 := by simpa using hp
      rcases hp2 with rfl | rfl <;> omega
    · obtain rfl : row = [1] := (Option.some.inj hb).symm
      have hp2 : p = 1 := by simpa using hp
      omega
    · simp at hb
  have hnodup : ∀ (b : Nat) (row : List Nat),
      ([[0, 2], [1]] : List (List Nat))[b]? = some row → row.Nodup := by
    intro b row hb
    rcases b with _ | _ | b
    · obtain rfl : row = [0, 2] := (Option.some.inj hb).symm
      decide
    · obtain rfl : row = [1] := (Option.some.inj hb).symm
      decide
    · simp at hb
  have h := cache_update_locality exCache exUpdate [[0, 2], [1]] 3 hrange hnodup
  refine ⟨h.1 0 [0, 2] 1 2 (by decide) (by decide), h.2 1 2 ?_⟩
  intro row r hb
  obtain rfl : row = [1] := (Option.some.inj hb).symm
  rcases r with _ | r <;> simp

/-- Index-value pairs `(position, logit)` of a logits row, positions
counted from `i`. -/
def indexed : Nat → List ℚ → List (Nat × ℚ)
  | _, [] => []
  | i, x :: xs => (i, x) :: indexed (i + 1) xs

/-- Select the earliest pair of maximal logit from a list of indexed
logits, returning it together with the remaining pairs. -/
def selectMax : List (Nat × ℚ) → Option ((Nat × ℚ) × List (Nat × ℚ))
  | [] => none
  | p :: rest =>
    match selectMax rest with
    | none => some (p, [])
    | some (m, others) => if m.2 ≤ p.2 then some (p, rest) else some (m, p :: others)

/-- The `k` pairs of largest logit (repeated first-maximum
selection). -/
def topKPairs : Nat → List (Nat × ℚ) → List (Nat × ℚ)
  | 0, _ => []
  | k + 1, l =>
    match selectMax l with
    | none => []
    | some (m, rest) => m :: topKPairs k rest

/-- `keras.ops.top_k(logits, k, sorted=False)` on one row: the `k`
largest logits together with their vocabulary indices (the source
leaves the order unspecified; this embedding fixes
largest-first with ties broken towards lower indices, a legitimate
instance of that contract). -/
def top_k (logits : List ℚ) (k : Nat) : List ℚ × List Nat :=
  let ps := topKPairs k (indexed 0 logits)
  (ps.map (fun p => p.2), ps.map (fun p => p.1))

/-- `Sampler.get_next_token` (`samplers.py`, lines 262-267) on one row:
scale the logits by `1/temperature` and draw one sample from the
resulting categorical distribution.  The random draw
`tf.random.categorical` is embedded as an arbitrary function
`categorical` from the scaled logits row to a chosen position; the only
property used of it is that a draw over a nonempty row is a valid
position. -/
def get_next_token (temperature : ℚ) (categorical : List ℚ → Nat) (logits : List ℚ) : Nat :=
  categorical (logits.map (fun z => z / temperature))

/-- `TopKSampler.get_next_token` (`samplers.py`, lines 288-291) on one
row: restrict to the `k` highest logits, sample among them with the
base sampler, and map the sampled local position back to the global
vocabulary id (`ops.take_along_axis`). -/
def topk_get_next_token (k : Nat) (temperature : ℚ) (categorical : List ℚ → Nat)
    (logits : List ℚ) : Nat :=
  ((top_k logits k).2).getD (get_next_token temperature categorical (top_k logits k).1) 0

theorem selectMax_of_ne_nil (l : List (Nat × ℚ)) (h : l ≠ []) :
    ∃ m rest, selectMax l = some (m, rest) := by
  cases l with
  | nil => exact absurd rfl h
  | cons p rest =>
    cases hrec : selectMax rest with
    | none => exact ⟨p, [], by simp [selectMax, hrec]⟩
    | some mr =>
      obtain ⟨m, others⟩ := mr
      by_cases hle : m.2 ≤ p.2
      · exact ⟨p, rest, by simp [selectMax, hrec, hle]⟩
      · exact ⟨m, p :: others, by simp [selectMax, hrec, hle]⟩

theorem selectMax_mem (l : List (Nat × ℚ)) (m : Nat × ℚ) (rest : List (Nat × ℚ))
    (h : selectMax l = some (m, rest)) : m ∈ l := by
  induction l generalizing m rest with
  | nil => simp [selectMax] at h
  | cons p ps ih =>
    cases hrec : selectMax ps with
    | none =>
      simp only [selectMax, hrec] at h
      simp only [Option.some_inj, Prod.mk.injEq] at h
      simp [h.1]
    | some mr =>
      obtain ⟨m', others⟩ := mr
      simp only [selectMax, hrec] at h
      by_cases hle : m'.2 ≤ p.2
      · rw [if_pos hle] at h
        simp only [Option.some_inj, Prod.mk.injEq] at h
        simp [h.1]
      · rw [if_neg hle] at h
        simp only [Option.some_inj, Prod.mk.injEq] at h
        exact List.mem_cons_of_mem p (h.1 ▸ ih m' others hrec)

theorem selectMax_is_max (l : List (Nat × ℚ)) (m : Nat × ℚ) (rest : List (Nat × ℚ))
    (h : selectMax l = some (m, rest)) : ∀ p ∈ l, p.2 ≤ m.2 := by
  induction l generalizing m rest with
  | nil => simp [selectMax] at h
  | cons p ps ih =>
    cases hrec : selectMax ps with
    | none =>
      have hps : ps = [] := by
        cases ps with
        | nil => rfl
        | cons q qs =>
          obtain ⟨m', rest', h'⟩ := selectMax_of_ne_nil (q :: qs) (by simp)
          rw [h'] at hrec
          cases hrec
      simp only [selectMax, hrec] at h
      simp only [Option.some_inj, Prod.mk.injEq] at h
      subst hps
      intro q hq
      have hqp : q = p := by simpa using hq
      simp [hqp, ← h.1]
    | some mr =>
      obtain ⟨m', others⟩ := mr
      simp only [selectMax, hrec] at h
      by_cases hle : m'.2 ≤ p.2
      · rw [if_pos hle] at h
        simp only [Option.some_inj, Prod.mk.injEq] at h
        intro q hq
        rcases List.mem_cons.mp hq with rfl | hq
        · simp [← h.1]
        · exact le_trans (ih m' others hrec q hq) (h.1 ▸ hle)
      · rw [if_neg hle] at h
        simp only [Option.some_inj, Prod.mk.injEq] at h
        intro q hq
        rcases List.mem_cons.mp hq with rfl | hq
        · exact le_of_lt (h.1 ▸ lt_of_not_le hle)
        · exact h.1 ▸ ih m' others hrec q hq

theorem indexed_ne_nil (i : Nat) (l : List ℚ) (h : l ≠ []) : indexed i l ≠ [] := by
  cases l with
  | nil => exact absurd rfl h
  | cons x xs => simp [indexed]

theorem mem_indexed (i : Nat) (l : List ℚ) (p : Nat × ℚ) (h : p ∈ indexed i l) :
    ∃ j, j < l.length ∧ p.1 = i + j ∧ l.getD j 0 = p.2 := by
  induction l generalizing i with
  | nil => simp [indexed] at h
  | cons x xs ih =>
    simp only [indexed, List.mem_cons] at h
    rcases h with rfl | h
    · exact ⟨0, by simp, by simp, by simp⟩
    · obtain ⟨j, hj, hp1, hp2⟩ := ih (i + 1) h
      exact ⟨j + 1, by simpa using hj, by omega, by simpa using hp2⟩

theorem val_mem_indexed (i : Nat) (l : List ℚ) (z : ℚ) (h : z ∈ l) :
    ∃ p ∈ indexed i l, p.2 = z := by
  induction l generalizing i with
  | nil => simp at h
  | cons x xs ih =>
    rcases List.mem_cons.mp h with rfl | h
    · exact ⟨(i, z), by simp [indexed], rfl⟩
    · obtain ⟨p, hp, hpz⟩ := ih (i + 1) h
      exact ⟨p, by simp [indexed, hp], hpz⟩

/-- Claim C8: for every logits row and temperatures strictly greater
than `0`, `TopKSampler.get_next_token` with `k = 1` returns a valid
vocabulary id whose logit is maximal in the row, and the selection is
deterministic - two runs with different categorical draws and
different temperatures yield the same id. -/
theorem topk1_selects_argmax (logits : List ℚ) (t t' : ℚ)
    (categorical categorical' : List ℚ → Nat)
    (hne : logits ≠ []) (ht : 0 < t) (ht' : 0 < t')
    (hvalid : ∀ l, l ≠ [] → categorical l < l.length)
    (hvalid' : ∀ l, l ≠ [] → categorical' l < l.length) :
    topk_get_next_token 1 t categorical logits < logits.length
    ∧ logits.all
        (fun z => z ≤ logits.getD (topk_get_next_token 1 t categorical logits) 0)
    ∧ topk_get_next_token 1 t categorical logits
        = topk_get_next_token 1 t' categorical' logits := by
  obtain ⟨m, rest, hsel⟩ :=
    selectMax_of_ne_nil (indexed 0 logits) (indexed_ne_nil 0 logits hne)
  have htop : ∀ (s : ℚ) (c : List ℚ → Nat), (∀ l, l ≠ [] → c l < l.length) →
      topk_get_next_token 1 s c logits = m.1 := by
    intro s c hc
    have hpairs : topKPairs 1 (indexed 0 logits) = [m] := by
      simp [topKPairs, hsel]
    have hc0 : c [m.2 / s] = 0 := by
      have := hc [m.2 / s] (by simp)
      simpa [Nat.lt_one_iff] using this
    simp [topk_get_next_token, top_k, hpairs, get_next_token, hc0]
  have hmain := htop t categorical hvalid
  have hother := htop t' categorical' hvalid'
  obtain ⟨j, hjlen, hj1, hj2⟩ := mem_indexed 0 logits m (selectMax_mem _ _ _ hsel)
  have hm1 : m.1 = j := by omega
  refine ⟨?_, ?_, ?_⟩
  · rw [hmain, hm1]
    exact hjlen
  · rw [List.all_eq_true]
    intro z hz
    obtain ⟨p, hp, hpz⟩ := val_mem_indexed 0 logits z hz
    have hle := selectMax_is_max _ _ _ hsel p hp
    rw [hmain, hm1, hj2, ← hpz]
    exact decide_eq_true hle
  · rw [hmain, hother]

/-- A categorical draw that always picks the first position. -/
def catFirst : List ℚ → Nat := fun _ => 0

/-- A categorical draw that always picks the last position. -/
def catLast : List ℚ → Nat := fun l => l.length - 1

/-- Witness for claim C8: on the concrete row `[1, 5, 2]`, top-1
sampling at temperatures `1` and `3` and with two different draws
returns position `1`, the maximal logit's id. -/
theorem topk1_selects_argmax_witness :
    topk_get_next_token 1 1 catFirst [1, 5, 2] < ([1, 5, 2] : List ℚ).length
    ∧ ([1, 5, 2] : List ℚ).all
        (fun z => z ≤ ([1, 5, 2] : List ℚ).getD (topk_get_next_token 1 1 catFirst [1, 5, 2]) 0)
    ∧ topk_get_next_token 1 1 catFirst [1, 5, 2]
        = topk_get_next_token 1 3 catLast [1, 5, 2] :=
  topk1_selects_argmax [1, 5, 2] 1 3 catFirst catLast (by simp)
    (by norm_num) (by norm_num)
    (fun l h => List.length_pos.mpr h)
    (fun l h => Nat.sub_lt (List.length_pos.mpr h) Nat.one_pos)

/-- Character-list form of `PAD_TOKEN`. -/
def padChars : List Char := ['[', 'p', 'a', 'd', ']']

/-- Character-list form of `OOV_TOKEN`. -/
def oovChars : List Char := ['[', 'o', 'o', 'v', ']']

/-- Character-list form of `BOS_TOKEN`. -/
def bosChars : List Char := ['[', 'b', 'o', 's', ']']

/-- Character-list form of `EOS_TOKEN`. -/
def eosChars : List Char := ['[', 'e', 'o', 's', ']']

theorem padChars_eq_data : PAD_TOKEN.data = padChars := rfl

theorem bosChars_eq_data : BOS_TOKEN.data = bosChars := rfl

theorem eosChars_eq_data : EOS_TOKEN.data = eosChars := rfl

/-- Position of the first occurrence of a token in the vocabulary list
(the `StaticHashTable` forward lookup of
`Tokenizer._create_lookup_tables`, keys = vocabulary tokens, values =
`arange(vocabulary_size)`). -/
def lookupIdx : List (List Char) → List Char → Option Nat
  | [], _ => none
  | v :: vs, t => if v = t then some 0 else (lookupIdx vs t).map (fun i => i + 1)

/-- `Tokenizer.token_to_id` (`tokenizers.py`, lines 215-224) on one
token: forward lookup with default `oov_token_id`. -/
def token_to_id (vocab : List (List Char)) (t : List Char) : Nat :=
  (lookupIdx vocab t).getD OOV_TOKEN_ID

/-- `Tokenizer.id_to_token` (`tokenizers.py`, lines 226-235) on one id:
reverse lookup with default `oov_token`. -/
def id_to_token (vocab : List (List Char)) (oov : List Char) (i : Nat) : List Char :=
  (vocab[i]?).getD oov

/-- `Tokenizer.tokenize` with `ragged=True` (`tokenizers.py`, lines
97-116): join `bos_token ++ input ++ eos_token` (`tf.strings.join`),
pretokenize, and map tokens to ids; the ragged path returns the ids
without padding.  The regex splitter (`SMILESTokenizer.pretokenize`,
backed by the external `tf_text.regex_split` engine) is embedded as the
splitter parameter `pretok`. -/
def tokenize (vocab : List (List Char)) (pretok : List Char → List (List Char))
    (bos_token eos_token : List Char) (input : List Char) : List Nat :=
  (pretok (bos_token ++ input ++ eos_token)).map (token_to_id vocab)

/-- One left-to-right pass of `tf.strings.regex_replace` with
`SMILESTokenizer.REGEX_PATTERN_CLEANUP` (the RE2 alternation
`[pad] | [bos] | [eos].*` with empty replacement; `.` does not match a
newline): at each position try the alternatives in order; `[pad]` and
`[bos]` matches are deleted, an `[eos]` match also swallows the rest of
the line; otherwise keep the character and continue.  The first
argument is recursion fuel, in use always at least the list length. -/
def cleanupAux : Nat → List Char → List Char
  | _, [] => []
  | 0, _ :: _ => []
  | fuel + 1, c :: rest =>
    if padChars.isPrefixOf (c :: rest) then cleanupAux fuel ((c :: rest).drop 5)
    else if bosChars.isPrefixOf (c :: rest) then cleanupAux fuel ((c :: rest).drop 5)
    else if eosChars.isPrefixOf (c :: rest) then
      cleanupAux fuel (((c :: rest).drop 5).dropWhile (fun ch => ch ≠ '\n'))
    else c :: cleanupAux fuel rest

/-- The cleanup regex replacement on a whole character list. -/
def cleanupChars (l : List Char) : List Char := cleanupAux l.length l

/-- `SMILESTokenizer.detokenize` (`tokenizers.py`, lines 321-327) on one
row: reverse-lookup each id, join (`tf.strings.reduce_join`), and apply
the cleanup regex replacement. -/
def detokenize (vocab : List (List Char)) (oov : List Char) (ids : List Nat) : List Char :=
  cleanupChars (List.flatten (ids.map (id_to_token vocab oov)))

/-- Whether the pattern occurs (as a contiguous sublist) anywhere in
`l`. -/
def occursIn (pat l : List Char) : Bool :=
  (List.range (l.length + 1)).any (fun i => pat.isPrefixOf (l.drop i))

theorem cleanupAux_fuel (f : Nat) : ∀ (l : List Char) (g : Nat),
    l.length ≤ f → l.length ≤ g → cleanupAux f l = cleanupAux g l := by
  induction f with
  | zero =>
    intro l g hf _
    have hl : l = [] := List.eq_nil_of_length_eq_zero (Nat.le_zero.mp hf)
    subst hl
    cases g <;> rfl
  | succ f ih =>
    intro l g hf hg
    cases l with
    | nil => cases g <;> rfl
    | cons c rest =>
      have hg1 : ∃ g', g = g' + 1 := ⟨g - 1, by simp at hg; omega⟩
      obtain ⟨g', rfl⟩ := hg1
      have hrest : rest.length + 1 ≤ f + 1 := by simpa using hf
      have hrest' : rest.length + 1 ≤ g' + 1 := by simpa using hg
      have hdrop : ((c :: rest).drop 5).length ≤ rest.length := by
        simp [List.length_drop]
      have hdropW : (((c :: rest).drop 5).dropWhile (fun ch => ch ≠ '\n')).length
          ≤ rest.length :=
        le_trans (List.dropWhile_sublist _).length_le hdrop
      simp only [cleanupAux]
      by_cases h1 : padChars.isPrefixOf (c :: rest) = true
      · rw [h1]
        simp only [if_true]
        exact ih _ _ (by omega) (by omega)
      · rw [Bool.not_eq_true] at h1
        rw [h1]
        simp only [Bool.false_eq_true, if_false]
        by_cases h2 : bosChars.isPrefixOf (c :: rest) = true
        · rw [h2]
          simp only [if_true]
          exact ih _ _ (by omega) (by omega)
        · rw [Bool.not_eq_true] at h2
          rw [h2]
          simp only [Bool.false_eq_true, if_false]
          by_cases h3 : eosChars.isPrefixOf (c :: rest) = true
          · rw [h3]
            simp only [if_true]
            exact ih _ _ (by omega) (by omega)
          · rw [Bool.not_eq_true] at h3
            rw [h3]
            simp only [Bool.false_eq_true, if_false]
            rw [ih rest g' (by omega) (by omega)]

theorem isPrefixOf_iff_take (p : List Char) : ∀ l : List Char,
    p.isPrefixOf l = true ↔ l.take p.length = p := by
  induction p with
  | nil => intro l; simp [List.isPrefixOf]
  | cons a as ih =>
    intro l
    cases l with
    | nil => simp [List.isPrefixOf]
    | cons b bs =>
      simp only [List.isPrefixOf, List.length_cons, List.take_succ_cons,
        Bool.and_eq_true, beq_iff_eq, List.cons.injEq, ih bs]
      tauto

theorem not_prefixOf_append (pat s e : List Char)
    (hlen : pat.length = 5)
    (hno : ∀ i, pat.isPrefixOf (s.drop i) = false)
    (hstr : ∀ k, 0 < k → k < 5 → (pat.drop k).isPrefixOf e = false)
    (hs : s ≠ []) :
    pat.isPrefixOf (s ++ e) = false := by
  by_contra hcon
  rw [Bool.not_eq_false, isPrefixOf_iff_take, hlen] at hcon
  by_cases hm : 5 ≤ s.length
  · have htake : (s ++ e).take 5 = s.take 5 := List.take_append_of_le_length hm
    have : pat.isPrefixOf (s.drop 0) = true := by
      rw [List.drop_zero, isPrefixOf_iff_take, hlen, ← htake, hcon]
    rw [hno 0] at this
    cases this
  · push_neg at hm
    have hm0 : 0 < s.length := List.length_pos.mpr hs
    have htake : (s ++ e).take 5 = s ++ e.take (5 - s.length) := by
      rw [List.take_append_eq_append_take]
      congr 1
      exact List.take_of_length_le (by omega)
    rw [htake] at hcon
    have hdrop : pat.drop s.length = e.take (5 - s.length) := by
      rw [← hcon]
      exact List.drop_left s (e.take (5 - s.length))
    have hplen : (pat.drop s.length).length = 5 - s.length := by
      rw [List.length_drop, hlen]
    have hpre : (pat.drop s.length).isPrefixOf e = true := by
      rw [isPrefixOf_iff_take, hplen, ← hdrop]
    rw [hstr s.length hm0 (by omega)] at hpre
    cases hpre

theorem occursIn_false_drop (pat l : List Char) (hne : pat ≠ [])
    (h : occursIn pat l = false) :
    ∀ i, pat.isPrefixOf (l.drop i) = false := by
  intro i
  by_cases hi : i ≤ l.length
  · have hmem : i ∈ List.range (l.length + 1) := List.mem_range.mpr (by omega)
    have hall := List.any_eq_false.mp h i hmem
    rw [Bool.eq_false_iff]
    exact fun htrue => hall htrue
  · have hdrop : l.drop i = [] := List.drop_eq_nil_of_le (by omega)
    rw [hdrop]
    cases pat with
    | nil => exact absurd rfl hne
    | cons a as => rfl

theorem cleanupAux_bos_open (f : Nat) (z : List Char) :
    cleanupAux (f + 1) (bosChars ++ z) = cleanupAux f z := by
  show cleanupAux (f + 1) ('[' :: 'b' :: 'o' :: 's' :: ']' :: z) = cleanupAux f z
  have h1 : padChars.isPrefixOf ('[' :: 'b' :: 'o' :: 's' :: ']' :: z) = false := rfl
  have h2 : bosChars.isPrefixOf ('[' :: 'b' :: 'o' :: 's' :: ']' :: z) = true := by
    rw [isPrefixOf_iff_take]
    rfl
  simp only [cleanupAux, h1, h2]
  simp [List.drop]

theorem cleanupAux_eos_nil (f : Nat) : cleanupAux (f + 1) eosChars = [] := by
  show cleanupAux (f + 1) ('[' :: 'e' :: 'o' :: 's' :: ']' :: []) = []
  have h1 : padChars.isPrefixOf ('[' :: 'e' :: 'o' :: 's' :: ']' :: []) = false := rfl
  have h2 : bosChars.isPrefixOf ('[' :: 'e' :: 'o' :: 's' :: ']' :: []) = false := rfl
  have h3 : eosChars.isPrefixOf ('[' :: 'e' :: 'o' :: 's' :: ']' :: []) = true := rfl
  simp only [cleanupAux, h1, h2, h3]
  simp only [Bool.false_eq_true, if_false, if_true, List.drop, List.dropWhile]
  cases f <;> rfl

theorem cleanupAux_cons_keep (f : Nat) (c : Char) (rest : List Char)
    (h1 : padChars.isPrefixOf (c :: rest) = false)
    (h2 : bosChars.isPrefixOf (c :: rest) = false)
    (h3 : eosChars.isPrefixOf (c :: rest) = false) :
    cleanupAux (f + 1) (c :: rest) = c :: cleanupAux f rest := by
  simp only [cleanupAux, h1, h2, h3]
  simp

theorem straddle_pad : ∀ k, 0 < k → k < 5 → (padChars.drop k).isPrefixOf eosChars = false := by
  intro k h1 h2
  interval_cases k <;> rfl

theorem straddle_bos : ∀ k, 0 < k → k < 5 → (bosChars.drop k).isPrefixOf eosChars = false := by
  intro k h1 h2
  interval_cases k <;> rfl

theorem straddle_eos : ∀ k, 0 < k → k < 5 → (eosChars.drop k).isPrefixOf eosChars = false := by
  intro k h1 h2
  interval_cases k <;> rfl

theorem cleanupAux_append_eos (s : List Char) : ∀ f : Nat,
    (s ++ eosChars).length ≤ f →
    (∀ i, padChars.isPrefixOf (s.drop i) = false) →
    (∀ i, bosChars.isPrefixOf (s.drop i) = false) →
    (∀ i, eosChars.isPrefixOf (s.drop i) = false) →
    cleanupAux f (s ++ eosChars) = s := by
  induction s with
  | nil =>
    intro f hf _ _ _
    obtain ⟨f', rfl⟩ : ∃ f', f = f' + 1 := ⟨f - 1, by simp [eosChars] at hf; omega⟩
    simpa using cleanupAux_eos_nil f'
  | cons c s ih =>
    intro f hf hpad hbos heos
    obtain ⟨f', rfl⟩ : ∃ f', f = f' + 1 := ⟨f - 1, by simp at hf; omega⟩
    have hcs : (c :: s) ≠ [] := by simp
    have h1 : padChars.isPrefixOf ((c :: s) ++ eosChars) = false :=
      not_prefixOf_append padChars (c :: s) eosChars rfl hpad straddle_pad hcs
    have h2 : bosChars.isPrefixOf ((c :: s) ++ eosChars) = false :=
      not_prefixOf_append bosChars (c :: s) eosChars rfl hbos straddle_bos hcs
    have h3 : eosChars.isPrefixOf ((c :: s) ++ eosChars) = false :=
      not_prefixOf_append eosChars (c :: s) eosChars rfl heos straddle_eos hcs
    rw [List.cons_append] at h1 h2 h3 ⊢
    rw [cleanupAux_cons_keep f' c (s ++ eosChars) h1 h2 h3]
    rw [ih f' (by simp only [List.length_append, List.length_cons] at hf ⊢; omega)
      (fun i => hpad (i + 1)) (fun i => hbos (i + 1)) (fun i => heos (i + 1))]

theorem cleanupChars_bos_body_eos (s : List Char)
    (hpad : ∀ i, padChars.isPrefixOf (s.drop i) = false)
    (hbos : ∀ i, bosChars.isPrefixOf (s.drop i) = false)
    (heos : ∀ i, eosChars.isPrefixOf (s.drop i) = false) :
    cleanupChars (bosChars ++ (s ++ eosChars)) = s := by
  unfold cleanupChars
  have hlen : (bosChars ++ (s ++ eosChars)).length = (s ++ eosChars).length + 5 := by
    simp only [List.length_append, show bosChars.length = 5 from rfl]
    omega
  rw [cleanupAux_fuel (bosChars ++ (s ++ eosChars)).length (bosChars ++ (s ++ eosChars))
    ((s ++ eosChars).length + 4 + 1) (le_refl _) (by omega)]
  rw [cleanupAux_bos_open]
  exact cleanupAux_append_eos s _ (by omega) hpad hbos heos

theorem lookupIdx_roundtrip (vocab : List (List Char)) (t : List Char) (h : t ∈ vocab) :
    ∃ i, lookupIdx vocab t = some i ∧ vocab[i]? = some t := by
  induction vocab with
  | nil => simp at h
  | cons v vs ih =>
    by_cases hv : v = t
    · exact ⟨0, by simp [lookupIdx, hv], by simp [hv]⟩
    · have ht : t ∈ vs := by
        rcases List.mem_cons.mp h with hvt | h2
        · exact absurd hvt.symm hv
        · exact h2
      obtain ⟨i, hi1, hi2⟩ := ih ht
      exact ⟨i + 1, by simp [lookupIdx, hv, hi1], by simpa using hi2⟩

theorem token_id_roundtrip (vocab : List (List Char)) (oov t : List Char) (h : t ∈ vocab) :
    id_to_token vocab oov (token_to_id vocab t) = t := by
  obtain ⟨i, hi1, hi2⟩ := lookupIdx_roundtrip vocab t h
  simp [id_to_token, token_to_id, hi1, hi2]

/-- Claim C9: for every string composed solely of in-vocabulary tokens
(given by its token decomposition `toks`, recovered by the regex
splitter on the marked-up input, with the body free of the literal
special-marker texts), `detokenize (tokenize s) = s` - the begin/end
markers that `tokenize` adds are exactly what `detokenize`'s cleanup
removes. -/
theorem tokenize_detokenize_roundtrip (vocab : List (List Char)) (oov : List Char)
    (pretok : List Char → List (List Char)) (toks : List (List Char)) (s : List Char)
    (hs : s = List.flatten toks)
    (hmem : ∀ t ∈ toks, t ∈ vocab)
    (hbosv : bosChars ∈ vocab) (heosv : eosChars ∈ vocab)
    (hsplit : pretok (bosChars ++ s ++ eosChars) = bosChars :: (toks ++ [eosChars]))
    (hpad : occursIn padChars s = false)
    (hbos : occursIn bosChars s = false)
    (heos : occursIn eosChars s = false) :
    detokenize vocab oov (tokenize vocab pretok bosChars eosChars s) = s := by
  unfold tokenize detokenize
  rw [hsplit, List.map_map]
  have hall : ∀ t ∈ bosChars :: (toks ++ [eosChars]), t ∈ vocab := by
    intro t ht
    rcases List.mem_cons.mp ht with rfl | ht
    · exact hbosv
    · rcases List.mem_append.mp ht with ht | ht
      · exact hmem t ht
      · obtain rfl : t = eosChars := by simpa using ht
        exact heosv
  have hmap : (bosChars :: (toks ++ [eosChars])).map
      (id_to_token vocab oov ∘ token_to_id vocab) = bosChars :: (toks ++ [eosChars]) := by
    have hcg := List.map_congr_left (fun t ht => token_id_roundtrip vocab oov t (hall t ht))
    simp only [Function.comp_def]
    rw [hcg]
    simp
  rw [hmap]
  have hflat : List.flatten (bosChars :: (toks ++ [eosChars]))
      = bosChars ++ (s ++ eosChars) := by
    rw [List.flatten_cons, List.flatten_append, hs]
    simp
  rw [hflat]
  exact cleanupChars_bos_body_eos s
    (occursIn_false_drop padChars s (by simp [padChars]) hpad)
    (occursIn_false_drop bosChars s (by simp [bosChars]) hbos)
    (occursIn_false_drop eosChars s (by simp [eosChars]) heos)

/-- The six-token vocabulary of the spec scenario:
`[pad]=0, [oov]=1, [bos]=2, [eos]=3, A=4, B=5`. -/
def vocab6 : List (List Char) := [padChars, oovChars, bosChars, eosChars, ['A'], ['B']]

/-- The regex splitter restricted to the concrete marked-up inputs of
the witnesses and the scenario (`SMILES_REGEX_PATTERN` splits
`[bos]AB[eos]` into `[bos]`, `A`, `B`, `[eos]` and `[bos]A[eos]` into
`[bos]`, `A`, `[eos]`). -/
def pretokAB : List Char → List (List Char) := fun l =>
  if l = bosChars ++ ['A', 'B'] ++ eosChars then [bosChars, ['A'], ['B'], eosChars]
  else if l = bosChars ++ ['A'] ++ eosChars then [bosChars, ['A'], eosChars]
  else []

/-- Witness for claim C9: the concrete string `AB` over the scenario
vocabulary round-trips. -/
theorem tokenize_detokenize_roundtrip_witness :
    detokenize vocab6 oovChars (tokenize vocab6 pretokAB bosChars eosChars ['A', 'B'])
      = ['A', 'B'] :=
  tokenize_detokenize_roundtrip vocab6 oovChars pretokAB [['A'], ['B']] ['A', 'B']
    (by decide) (by decide) (by decide) (by decide) (by decide)
    (by decide) (by decide) (by decide)

/-- `Tokenizer.pad` with `sequence_length=None`
(`RaggedTensor.to_tensor`): pad each row to the maximum row length with
the pad id. -/
def padRows (rows : List (List Nat)) : List (List Nat) :=
  let L := (rows.map List.length).foldr max 0
  rows.map (fun r => r ++ List.replicate (L - r.length) PAD_TOKEN_ID)

/-- The loop state of `Sampler._generate` (`samplers.py`, lines
130-260): the stacked `tokens` TensorArray (`buf[t]` is the token
vector written at step `t`; `buf[0]` is the seed written at line 241),
the self-attention cache, and the per-row scalar cache update index.
The optional `log_probs`/`entropies` arrays are passed as empty tuples
by `__call__` (line 63) and never written, and the cross-attention
branch is inactive in the encoder-free pipeline embedded here
(lines 250-252), so those loop variables are omitted. -/
structure GenState (C : Type) where
  buf : List (List Nat)
  self_attention_cache : C
  self_attention_cache_update_index : List Nat

/-- Whether batch row `b` has an end token among the buffered step
vectors (`keras.ops.any(tokens.stack() == stop_token_id, axis=0)`). -/
def seenStop (stop_token_id : Nat) (buf : List (List Nat)) (b : Nat) : Bool :=
  buf.any (fun row => row.getD b 0 == stop_token_id)

/-- `Sampler._generate._cond` (`samplers.py`, lines 142-151): keep
looping while not every batch row has an end token among the buffered
tokens. -/
def _cond (stop_token_id batch_size : Nat) (buf : List (List Nat)) : Bool :=
  ! (List.range batch_size).all (seenStop stop_token_id buf)

/-- `Sampler._generate._step` (`samplers.py`, lines 153-236) in the
encoder-free self-attention-caching configuration: read the last
written token vector (`tokens.read(index - 1)`), run the model one
step (yielding per-row logits and an updated cache), select the next
token vector with the sampling policy, append it to the buffer
(`tokens.write(index, next_token)`), and increment every row's cache
update index by one. -/
def _step {C : Type} (model : List Nat → C → List Nat → List (List ℚ) × C)
    (get_next : List (List ℚ) → List Nat) (s : GenState C) : GenState C :=
  let index := s.buf.length
  let current_token := (s.buf[index - 1]?).getD []
  let out := model current_token s.self_attention_cache s.self_attention_cache_update_index
  let next_token := get_next out.1
  { buf := s.buf ++ [next_token]
    self_attention_cache := out.2
    self_attention_cache_update_index :=
      s.self_attention_cache_update_index.map (fun i => i + 1) }

/-- The `ops.while_loop` of `Sampler._generate` (lines 243-254), with
explicit fuel (the source loop is unbounded; a run that halts does so
independently of any fuel at least as large as its step count). -/
def generateLoop {C : Type} (stop_token_id batch_size : Nat)
    (model : List Nat → C → List Nat → List (List ℚ) × C)
    (get_next : List (List ℚ) → List Nat) : Nat → GenState C → GenState C
  | 0, s => s
  | fuel + 1, s =>
    if _cond stop_token_id batch_size s.buf then
      generateLoop stop_token_id batch_size model get_next fuel (_step model get_next s)
    else s

/-- The tuple `Sampler._prepare` returns (minus the always-`None`
cross-attention entries of the encoder-free configuration). -/
structure PrepareOut (C : Type) where
  current_token : List Nat
  decoder_input : List (List Nat)
  self_attention_cache : C
  self_attention_cache_update_index : List Nat

/-- `Sampler._prepare` (`samplers.py`, lines 73-128) in the
encoder-free configuration: tokenize the prompts (ragged), strip the
trailing token of each row (`[:, :-1]`, the appended end token),
compute per-row lengths, initialize a fresh cache, form the ragged
priming write indices `0..promptLen[b]-1` (`tf.ragged.range`), take
the last stripped token per row (`[:, -1:].to_tensor()[:, 0]`, the pad
id for an empty row), run the priming forward pass over the padded
prompt (embedded as the `prime` model function, of which only the
returned cache is used), and finally set the scalar per-row cache
update index to `ops.zeros((batch_size, 1))` (line 116). -/
def _prepare {C : Type} (vocab : List (List Char))
    (pretok : List Char → List (List Char))
    (init_cache : Nat → C)
    (prime : List (List Nat) → C → List (List Nat) → C)
    (prompts : List (List Char)) : PrepareOut C :=
  let batch_size := prompts.length
  let tokenized := prompts.map (tokenize vocab pretok bosChars eosChars)
  let decoder_input := tokenized.map (fun row => row.dropLast)
  let sequence_lengths := decoder_input.map List.length
  let self_attention_cache := init_cache batch_size
  let ragged_index := sequence_lengths.map List.range
  let current_token := decoder_input.map (fun row => (row.getLast?).getD PAD_TOKEN_ID)
  let primed := prime (padRows decoder_input) self_attention_cache ragged_index
  { current_token := current_token
    decoder_input := decoder_input
    self_attention_cache := primed
    self_attention_cache_update_index := List.replicate batch_size 0 }

/-- `_unpack_array` (`samplers.py`, lines 314-317):
`ops.transpose(tokens.stack())`, yielding per-row step sequences. -/
def unpackTokens (batch_size : Nat) (buf : List (List Nat)) : List (List Nat) :=
  (List.range batch_size).map (fun b => buf.map (fun row => row.getD b 0))

/-- `Sampler.__call__` (`samplers.py`, lines 53-71) composed with
`_prepare` and `_generate`, encoder-free: prepare, seed the token
buffer with the last prompt token (line 241), run the loop, transpose
the buffer, concatenate the stripped prompt ids with the buffered step
vectors along the sequence axis (line 67), and detokenize.  Returns
the decoded strings together with the final loop state. -/
def samplerCall {C : Type} (vocab : List (List Char))
    (pretok : List Char → List (List Char)) (oov : List Char)
    (stop_token_id : Nat)
    (init_cache : Nat → C)
    (prime : List (List Nat) → C → List (List Nat) → C)
    (model : List Nat → C → List Nat → List (List ℚ) × C)
    (get_next : List (List ℚ) → List Nat)
    (fuel : Nat)
    (prompts : List (List Char)) : List (List Char) × GenState C :=
  let p := _prepare vocab pretok init_cache prime prompts
  let batch_size := prompts.length
  let s0 : GenState C :=
    { buf := [p.current_token]
      self_attention_cache := p.self_attention_cache
      self_attention_cache_update_index := p.self_attention_cache_update_index }
  let sf := generateLoop stop_token_id batch_size model get_next fuel s0
  let tokens := unpackTokens batch_size sf.buf
  let decoder_output := List.zipWith (fun a b => a ++ b) p.decoder_input tokens
  (decoder_output.map (detokenize vocab oov), sf)

/-- The stub model of the spec scenario: forces `B` (id 5) after `A`
(id 4) and `[eos]` (id 3) after `B`; the cache is unused. -/
def stubModel : List Nat → Unit → List Nat → List (List ℚ) × Unit :=
  fun current_token _ _ =>
    (current_token.map (fun t =>
      if t = 4 then [0, 0, 0, 0, 0, 10]
      else if t = 5 then [0, 0, 0, 10, 0, 0]
      else [10, 0, 0, 0, 0, 0]), ())

/-- The row-wise top-1 policy used in the scenario run (deterministic
by claim C8), at the `TopKSampler` default temperature. -/
def stubNext : List (List ℚ) → List Nat :=
  fun logits => logits.map (topk_get_next_token 1 (7 / 10) catFirst)

/-- A stub `initialize_attention_cache` over the trivial cache type. -/
def stubInitCache : Nat → Unit := fun _ => ()

/-- A stub priming forward pass over the trivial cache type. -/
def stubPrime : List (List Nat) → Unit → List (List Nat) → Unit := fun _ _ _ => ()

/-- Claim C1 (divergence exhibit): on the scenario prompt `A`, the
stripped tokenized prompt `[bos] A` has length 2 per row, yet the
scalar cache update index `_prepare` returns for the stepping loop is
`0` for the row - `samplers.py` line 116 sets it to
`ops.zeros((batch_size, 1))` rather than to the per-row prompt length,
so the first decode step writes to cache position 0 and uses the
position embedding of position 0, contradicting the spec. -/
theorem prepare_cache_index_zero_not_prompt_length :
    (_prepare vocab6 pretokAB stubInitCache stubPrime
        [['A']]).self_attention_cache_update_index = [0]
    ∧ ((_prepare vocab6 pretokAB stubInitCache stubPrime
        [['A']]).decoder_input.map List.length) = [2]
    ∧ (0 : Nat) ≠ 2 := by
  refine ⟨rfl, rfl, by decide⟩

/-- The spec scenario run: vocabulary
`[pad]=0, [oov]=1, [bos]=2, [eos]=3, A=4, B=5`, prompt `A`, stub model
forced to emit `B` then `[eos]`, deterministic top-1 policy, ample
fuel. -/
def scenarioRun : List (List Char) × GenState Unit :=
  samplerCall vocab6 pretokAB oovChars 3 stubInitCache stubPrime stubModel stubNext 10 [['A']]

/-- Claim C2 (divergence exhibit): the scenario run halts after exactly
2 decode steps (buffer = seed + 2 written vectors), but returns the
string `AAB` - the seed vector duplicates the last prompt token, which
line 67 then concatenates after the full stripped prompt - and the
final per-row cache update index is `2`, not `3`, because it starts
from `0` (line 116) instead of the prompt length. -/
theorem sample_scenario_divergence :
    scenarioRun.1 = [['A', 'A', 'B']]
    ∧ scenarioRun.2.self_attention_cache_update_index = [2]
    ∧ scenarioRun.2.buf.length = 3 := by
  refine ⟨?_, ?_, ?_⟩ <;> rfl

/-- Claim C3: the generation loop's halting predicate is an AND over
batch elements - `_cond` holds exactly when at least one batch row has
no end token among the buffered step vectors; while it holds the loop
keeps stepping, and a step appends one token vector and increments
every row's cache index (rows that already emitted the end token
included); when it fails the loop returns the state unchanged; and
whenever the loop has stopped with the predicate false, every batch
row has an end token among the buffered vectors. -/
theorem generate_halting {C : Type} (stop_token_id batch_size : Nat)
    (model : List Nat → C → List Nat → List (List ℚ) × C)
    (get_next : List (List ℚ) → List Nat) :
    (∀ buf, _cond stop_token_id batch_size buf = true ↔
        ∃ b, b < batch_size ∧ ∀ row ∈ buf, row.getD b 0 ≠ stop_token_id)
    ∧ (∀ (fuel : Nat) (s : GenState C), _cond stop_token_id batch_size s.buf = true →
        generateLoop stop_token_id batch_size model get_next (fuel + 1) s
          = generateLoop stop_token_id batch_size model get_next fuel (_step model get_next s))
    ∧ (∀ (fuel : Nat) (s : GenState C), _cond stop_token_id batch_size s.buf = false →
        generateLoop stop_token_id batch_size model get_next fuel s = s)
    ∧ (∀ s : GenState C,
        (_step model get_next s).buf
          = s.buf ++ [get_next (model ((s.buf[s.buf.length - 1]?).getD [])
              s.self_attention_cache s.self_attention_cache_update_index).1]
        ∧ (_step model get_next s).self_attention_cache_update_index
          = s.self_attention_cache_update_index.map (fun i => i + 1))
    ∧ (∀ (fuel : Nat) (s : GenState C),
        _cond stop_token_id batch_size
            (generateLoop stop_token_id batch_size model get_next fuel s).buf = false →
        ∀ b, b < batch_size →
          ∃ row ∈ (generateLoop stop_token_id batch_size model get_next fuel s).buf,
            row.getD b 0 = stop_token_id) := by
  have hcond : ∀ buf, _cond stop_token_id batch_size buf = true ↔
      ∃ b, b < batch_size ∧ ∀ row ∈ buf, row.getD b 0 ≠ stop_token_id := by
    intro buf
    simp only [_cond, Bool.not_eq_true']
    rw [List.all_eq_false]
    constructor
    · rintro ⟨b, hb, hsb⟩
      refine ⟨b, List.mem_range.mp hb, ?_⟩
      intro row hrow
      rw [Bool.not_eq_true] at hsb
      have := List.any_eq_false.mp hsb row hrow
      simpa using this
    · rintro ⟨b, hb, hrows⟩
      refine ⟨b, List.mem_range.mpr hb, ?_⟩
      rw [Bool.not_eq_true, seenStop, List.any_eq_false]
      intro row hrow
      simpa using hrows row hrow
  refine ⟨hcond, ?_, ?_, ?_, ?_⟩
  · intro fuel s h
    simp only [generateLoop, h, if_true]
  · intro fuel s h
    cases fuel with
    | zero => rfl
    | succ f =>
      simp only [generateLoop, h]
      simp
  · intro s
    exact ⟨rfl, rfl⟩
  · intro fuel s h b hb
    by_contra hno
    push_neg at hno
    have hc : _cond stop_token_id batch_size
        (generateLoop stop_token_id batch_size model get_next fuel s).buf = true :=
      (hcond _).mpr ⟨b, hb, hno⟩
    rw [h] at hc
    cases hc

/-- Witness for claim C3 at concrete states: with end token `3` and
batch size `1`, a buffer whose single row lacks the end token keeps the
loop going, and a state whose row already holds the end token is
returned unchanged by the loop. -/
theorem generate_halting_witness :
    _cond 3 1 [[4]] = true
    ∧ generateLoop 3 1 stubModel stubNext 7
        { buf := [[3]], self_attention_cache := (),
          self_attention_cache_update_index := [1] }
      = { buf := [[3]], self_attention_cache := (),
          self_attention_cache_update_index := [1] } :=
  ⟨((generate_halting 3 1 stubModel stubNext).1 [[4]]).mpr ⟨0, by decide, by decide⟩,
    (generate_halting 3 1 stubModel stubNext).2.2.1 7
      { buf := [[3]], self_attention_cache := (),
        self_attention_cache_update_index := [1] } (by decide)⟩

end Molcraft
